import Mathlib

/-!
# Verification of the jot editor-state subsystem

Shallow embedding of the per-tab undo/redo history manager
(`src/lib/stores/history.ts`), the notes content store
(`src/lib/stores/notes.ts`), the persistence gateway
(`src/lib/utils/persistence.ts`), the active-tab store
(`src/lib/stores/tabs.ts`) and the plain-text editor view's cursor and
formatting operations (`src/lib/components/MarkdownEditor.svelte`).

Tab indices are JavaScript numbers, embedded as `Int`; note texts are
embedded as `String` where only whole-string comparison occurs and as
`List Char` where the code performs index-based string surgery
(JavaScript `substring` / `setRangeText`).
-/

namespace Jot

/-- Pointwise update of a store record keyed by tab index
(`state[tabIndex] = v` on a JS `Record<number, _>`). -/
def setIdx {α : Type} (f : Int → α) (i : Int) (v : α) : Int → α :=
  fun j => if j = i then v else f j

@[simp] theorem setIdx_same {α : Type} (f : Int → α) (i : Int) (v : α) :
    setIdx f i v i = v := by simp [setIdx]

theorem setIdx_other {α : Type} (f : Int → α) (i j : Int) (v : α) (h : j ≠ i) :
    setIdx f i v j = f j := by simp [setIdx, h]

/-! ## History Manager (`src/lib/stores/history.ts`) -/

/-- `MAX_HISTORY_SIZE` from history.ts. -/
def MAX_HISTORY_SIZE : Nat := 100

/-- The three svelte stores of history.ts: `undoHistory`, `redoHistory` and
`lastSavedContent`, keyed by tab index.  JS arrays push and pop at the end,
so a stack is a `List String` with the most recent snapshot last. -/
structure HistoryState where
  undoStack : Int → List String
  redoStack : Int → List String
  lastSaved : Int → String

/-- `Array.prototype.slice(-n)`: the last `n` elements of the array. -/
def jsSliceLast (l : List String) (n : Nat) : List String :=
  l.drop (l.length - n)

/-- The push step of `pushToHistory`:
`if (state[tabIndex].length === 0 || state[tabIndex][len-1] !== currentLastSaved)
state[tabIndex].push(currentLastSaved)`. -/
def pushedStack (stack : List String) (currentLastSaved : String) : List String :=
  if stack.length = 0 ∨ stack.getLast? ≠ some currentLastSaved then
    stack ++ [currentLastSaved]
  else stack

/-- The size-limit step of `pushToHistory`:
`if (state[tabIndex].length > MAX_HISTORY_SIZE)
state[tabIndex] = state[tabIndex].slice(-MAX_HISTORY_SIZE)`. -/
def trimmedStack (stack : List String) : List String :=
  if stack.length > MAX_HISTORY_SIZE then jsSliceLast stack MAX_HISTORY_SIZE
  else stack

/-- `pushToHistory(tabIndex, content)` from history.ts: when the content
changed against `lastSavedContent[tabIndex]`, push the old last-saved text
onto the undo stack unless it already sits on top, trim the stack to the
last `MAX_HISTORY_SIZE` entries, clear the redo stack and record `content`
as the new last-saved text. -/
def pushToHistory (st : HistoryState) (tabIndex : Int) (content : String) :
    HistoryState :=
  if st.lastSaved tabIndex ≠ content then
    { undoStack := setIdx st.undoStack tabIndex
        (trimmedStack (pushedStack (st.undoStack tabIndex) (st.lastSaved tabIndex)))
      redoStack := setIdx st.redoStack tabIndex []
      lastSaved := setIdx st.lastSaved tabIndex content }
  else st

/-- `myundo(tabIndex)` from history.ts: if the undo stack is non-empty, pop
its last element (`pop()`), push the current `lastSavedContent[tabIndex]`
onto the redo stack, record the popped text as last-saved and return it;
on an empty stack return `null` and change nothing. -/
def myundo (st : HistoryState) (tabIndex : Int) : Option String × HistoryState :=
  match (st.undoStack tabIndex).getLast? with
  | none => (none, st)
  | some previousContent =>
      (some previousContent,
       { undoStack := setIdx st.undoStack tabIndex (st.undoStack tabIndex).dropLast
         redoStack := setIdx st.redoStack tabIndex
           (st.redoStack tabIndex ++ [st.lastSaved tabIndex])
         lastSaved := setIdx st.lastSaved tabIndex previousContent })

/-- `myredo(tabIndex)` from history.ts, symmetric to `myundo`. -/
def myredo (st : HistoryState) (tabIndex : Int) : Option String × HistoryState :=
  match (st.redoStack tabIndex).getLast? with
  | none => (none, st)
  | some nextContent =>
      (some nextContent,
       { undoStack := setIdx st.undoStack tabIndex
           (st.undoStack tabIndex ++ [st.lastSaved tabIndex])
         redoStack := setIdx st.redoStack tabIndex (st.redoStack tabIndex).dropLast
         lastSaved := setIdx st.lastSaved tabIndex nextContent })

/-- The initial value of the three history stores: empty stacks, empty
last-saved text for every tab. -/
def histInit : HistoryState :=
  { undoStack := fun _ => [], redoStack := fun _ => [], lastSaved := fun _ => "" }

/-- A sequence of edits on one tab, each committed through `pushToHistory`. -/
def editMany (st : HistoryState) (tab : Int) (contents : List String) :
    HistoryState :=
  contents.foldl (fun s c => pushToHistory s tab c) st

/-- A family of pairwise distinct note texts used as concrete edit
contents: `aStr n` is the string of `n` copies of `a`. -/
def aStr (n : Nat) : String := String.mk (List.replicate n 'a')

/-! ## Notes store, persistence gateway and active tab
(`src/lib/stores/notes.ts`, `src/lib/utils/persistence.ts`,
`src/lib/stores/tabs.ts`)

The observable actions these functions perform (localStorage writes, timer
scheduling and cancellation, Tauri `invoke` calls, store updates) are
recorded in an event trace; the single shared debounce timer
`window.savingTimeout` is part of the state, holding the tab index and
content its scheduled callback would write. -/

/-- Observable events of the persistence and tab layer. -/
inductive Ev where
  /-- entry into `saveNote(tabIndex, content)` of persistence.ts -/
  | saveNoteCall (tab : Int) (content : String)
  /-- `localStorage.setItem("jot-note-" + tab, content)` -/
  | localStorageSetNote (tab : Int) (content : String)
  /-- `clearTimeout(window.savingTimeout)` -/
  | clearSavingTimeout
  /-- `window.savingTimeout = setTimeout(..., delayMs)` scheduling the
  filesystem write of `content` for `tab` -/
  | scheduleSaveTimeout (tab : Int) (content : String) (delayMs : Nat)
  /-- the debounced callback running `invoke("save_note", {tabIndex, content})` -/
  | invokeSaveNote (tab : Int) (content : String)
  /-- entry into `updateNote(tabIndex, content)` of notes.ts -/
  | updateNoteCall (tab : Int) (content : String)
  /-- `activeTab.set(tabIndex)` inside `setActiveTab` of tabs.ts -/
  | activeTabSet (tab : Int)
  /-- `saveActiveTab(tabIndex)`: localStorage plus `invoke("save_active_tab")` -/
  | saveActiveTabCall (tab : Int)
deriving DecidableEq

/-- Combined state of the stores the persistence layer touches. -/
structure AppState where
  /-- the `notes` store (notes.ts), total over tab indices -/
  notes : Int → String
  /-- the three history stores (history.ts) -/
  hist : HistoryState
  /-- `localStorage` entries `jot-note-<tab>` -/
  localStorage : Int → Option String
  /-- the single shared `window.savingTimeout`, with the pending write -/
  savingTimeout : Option (Int × String)
  /-- the `activeTab` store (tabs.ts) -/
  activeTab : Int

/-- `saveNote(tabIndex, content)` from persistence.ts: write localStorage at
once, clear any pending `window.savingTimeout` (it is one shared variable,
whichever tab scheduled it), and schedule the Tauri `save_note` call on a
fresh 1000 ms timeout. -/
def saveNote (st : AppState) (tabIndex : Int) (content : String) :
    AppState × List Ev :=
  let clearEvs : List Ev :=
    match st.savingTimeout with
    | some _ => [Ev.clearSavingTimeout]
    | none => []
  ({ st with
      localStorage := fun j => if j = tabIndex then some content else st.localStorage j
      savingTimeout := some (tabIndex, content) },
   Ev.saveNoteCall tabIndex content :: Ev.localStorageSetNote tabIndex content ::
     clearEvs ++ [Ev.scheduleSaveTimeout tabIndex content 1000])

/-- The debounce timer elapsing: the scheduled callback performs the Tauri
`save_note` invoke for whatever single pending write `window.savingTimeout`
holds; with no pending timer nothing happens. -/
def fireSavingTimeout (st : AppState) : AppState × List Ev :=
  match st.savingTimeout with
  | none => (st, [])
  | some (tab, content) =>
      ({ st with savingTimeout := none }, [Ev.invokeSaveNote tab content])

/-- `updateNote(tabIndex, content)` from notes.ts: push to history, update
the `notes` store, and when the new content is the empty string call
`saveNote(tabIndex, "")`. -/
def updateNote (st : AppState) (tabIndex : Int) (content : String) :
    AppState × List Ev :=
  let st1 := { st with hist := pushToHistory st.hist tabIndex content }
  let st2 := { st1 with notes := setIdx st1.notes tabIndex content }
  if content = "" then
    let (st3, evs) := saveNote st2 tabIndex ""
    (st3, Ev.updateNoteCall tabIndex content :: evs)
  else
    (st2, [Ev.updateNoteCall tabIndex content])

/-- `setActiveTab(tabIndex)` from tabs.ts: inside the range 0..6 set the
`activeTab` store, persist it via `saveActiveTab`, and return `true`;
outside the range do nothing and return `false`. -/
def setActiveTab (st : AppState) (tabIndex : Int) :
    AppState × Bool × List Ev :=
  if 0 ≤ tabIndex ∧ tabIndex ≤ 6 then
    ({ st with activeTab := tabIndex }, true,
     [Ev.activeTabSet tabIndex, Ev.saveActiveTabCall tabIndex])
  else
    (st, false, [])

/-- A sequence of `setActiveTab` requests, keeping only the store state. -/
def runSetActiveTabs (st : AppState) (l : List Int) : AppState :=
  l.foldl (fun s i => (setActiveTab s i).1) st

/-- `handleSaveContentEvent` from MarkdownEditor.svelte (the
`save-current-content` listener): if a view exists, read its live content;
when it differs from the `notes` store value for the outgoing (active) tab,
commit it with `updateNote` and await `saveNote` for that tab, and only then
call `setActiveTab(newTabIndex)`.  `viewContent` is `some` of the live
`currentView.content` when a view exists. -/
def handleSaveContentEvent (st : AppState) (viewContent : Option String)
    (newTabIndex : Int) : AppState × List Ev :=
  match viewContent with
  | some currentContent =>
      let currentStoreContent := st.notes st.activeTab
      if currentContent ≠ currentStoreContent then
        let (st1, e1) := updateNote st st.activeTab currentContent
        let (st2, e2) := saveNote st1 st.activeTab currentContent
        let (st3, _, e3) := setActiveTab st2 newTabIndex
        (st3, e1 ++ e2 ++ e3)
      else
        let (st1, _, e1) := setActiveTab st newTabIndex
        (st1, e1)
  | none =>
      let (st1, _, e1) := setActiveTab st newTabIndex
      (st1, e1)

/-- Initial app state: empty notes, fresh history, empty localStorage, no
pending timer, tab 0 active. -/
def appInit : AppState :=
  { notes := fun _ => "", hist := histInit, localStorage := fun _ => none
    savingTimeout := none, activeTab := 0 }

/-! ## Editor views (`src/lib/components/MarkdownEditor.svelte`)

The plain `MarkdownView` wraps a DOM textarea; texts are embedded as
`List Char` because the formatting commands do index-based surgery with
JavaScript `substring` and `setRangeText`. -/

/-- `value.substring(start, end)` on a JS string: both arguments are
clamped into `[0, length]` and swapped when `start > end`. -/
def jsSubstring (s : List Char) (start stop : Int) : List Char :=
  let n : Int := (s.length : Int)
  let a := (max 0 (min start n)).toNat
  let b := (max 0 (min stop n)).toNat
  (s.take (max a b)).drop (min a b)

/-- Assignment to `textarea.selectionStart` / `selectionEnd`: the DOM
selection setter clamps the assigned offset into `[0, value.length]`
instead of throwing. -/
def domClampSel (len : Nat) (v : Int) : Nat :=
  (max 0 (min v (len : Int))).toNat

/-- The DOM textarea backing `MarkdownView`: its `value` and current
selection offsets (`selectionStart ≤ selectionEnd ≤ value.length` for a
real textarea). -/
structure Textarea where
  value : List Char
  selStart : Nat
  selEnd : Nat
deriving DecidableEq

/-- `textarea.setRangeText(repl, start, end, "end")`: replace
`[start, end)` of the value by `repl` and collapse the selection to the
end of the inserted text.  The callers in MarkdownView always pass the
current selection, so `start ≤ end ≤ value.length` (the DOM throws on
`start > end`). -/
def setRangeTextEnd (ta : Textarea) (repl : List Char) (start stop : Nat) :
    Textarea :=
  let s := min start ta.value.length
  let e := min stop ta.value.length
  { value := ta.value.take s ++ repl ++ ta.value.drop e
    selStart := s + repl.length
    selEnd := s + repl.length }

/-- `MarkdownView.wrapSelection(before, after)`: if the text directly in
front of the selection equals `before` and the text directly behind it
equals `after`, remove that pair and keep the same text selected;
otherwise wrap the selection via `setRangeText`, placing the cursor
between the markers when the selection is empty and selecting the wrapped
text otherwise. -/
def wrapSelection (ta : Textarea) (before after : List Char) : Textarea :=
  let value := ta.value
  let selectionStart := ta.selStart
  let selectionEnd := ta.selEnd
  let selectedText := jsSubstring value selectionStart selectionEnd
  if jsSubstring value ((selectionStart : Int) - (before.length : Int))
        (selectionStart : Int) = before ∧
     jsSubstring value (selectionEnd : Int)
        ((selectionEnd : Int) + (after.length : Int)) = after then
    let newStart : Int := (selectionStart : Int) - (before.length : Int)
    let newEnd : Int := (selectionEnd : Int) - (before.length : Int)
    let newValue :=
      jsSubstring value 0 newStart ++ selectedText ++
        jsSubstring value ((selectionEnd : Int) + (after.length : Int))
          (value.length : Int)
    { value := newValue
      selStart := domClampSel newValue.length newStart
      selEnd := domClampSel newValue.length newEnd }
  else
    let newText := before ++ selectedText ++ after
    let ta1 := setRangeTextEnd ta newText selectionStart selectionEnd
    if selectionStart = selectionEnd then
      { ta1 with
          selStart := domClampSel ta1.value.length
            ((selectionStart : Int) + (before.length : Int))
          selEnd := domClampSel ta1.value.length
            ((selectionStart : Int) + (before.length : Int)) }
    else
      { ta1 with
          selStart := domClampSel ta1.value.length
            ((selectionStart : Int) + (before.length : Int))
          selEnd := domClampSel ta1.value.length
            ((selectionEnd : Int) + (before.length : Int)) }

/-- The selection is exactly surrounded by the delimiter pair: the
`before.length` characters in front of the selection spell `before` and
the `after.length` characters behind it spell `after` (the `hasBefore` and
`hasAfter` tests of `wrapSelection`, phrased structurally). -/
def wrappedAround (ta : Textarea) (before after : List Char) : Prop :=
  before.length ≤ ta.selStart ∧
  (ta.value.drop (ta.selStart - before.length)).take before.length = before ∧
  (ta.value.drop ta.selEnd).take after.length = after

instance (ta : Textarea) (before after : List Char) :
    Decidable (wrappedAround ta before after) := by
  unfold wrappedAround; infer_instance

/-- `MarkdownView.setCursorPosition(position)`: assigns `position` to the
textarea's `selectionStart` and `selectionEnd`; the code does no arithmetic
of its own, the DOM selection setter clamps the offset into
`[0, value.length]`. -/
def markdownSetCursorPosition (contentLength : Nat) (position : Int) : Nat :=
  domClampSel contentLength position

/-- `ProseMirrorView.setCursorPosition(position)`: computes
`resolvedPos = Math.min(position, doc.content.size)`, then builds a
`TextSelection` at `resolvedPos` and dispatches it; `TextSelection.create`
succeeds for positions in `[0, doc.content.size]` and throws below 0, and
the surrounding try/catch turns a throw into a logged no-op that leaves
the current selection in place. -/
def prosemirrorSetCursorPosition (docContentSize : Nat)
    (currentSelection : Nat) (position : Int) : Nat :=
  let resolvedPos := min position (docContentSize : Int)
  if 0 ≤ resolvedPos then resolvedPos.toNat else currentSelection

/-! ## Helper lemmas: history stacks -/

theorem getLast?_drop_of_lt {α : Type} (l : List α) (n : Nat) (h : n < l.length) :
    (l.drop n).getLast? = l.getLast? := by
  rw [List.getLast?_eq_getElem?, List.getLast?_eq_getElem?, List.length_drop,
    List.getElem?_drop]
  congr 1
  omega

theorem pushedStack_getLast? (stack : List String) (cls : String) :
    (pushedStack stack cls).getLast? = some cls := by
  unfold pushedStack
  split
  · exact List.getLast?_concat stack
  · next h =>
    push_neg at h
    exact h.2

theorem pushedStack_ne_nil (stack : List String) (cls : String) :
    pushedStack stack cls ≠ [] := by
  intro hnil
  have := pushedStack_getLast? stack cls
  rw [hnil] at this
  simp at this

theorem trimmedStack_length (stack : List String) :
    (trimmedStack stack).length = min stack.length MAX_HISTORY_SIZE := by
  unfold trimmedStack jsSliceLast
  split <;> simp <;> omega

theorem trimmedStack_getLast? (stack : List String) (h : stack ≠ []) :
    (trimmedStack stack).getLast? = stack.getLast? := by
  unfold trimmedStack jsSliceLast
  split
  · next hgt =>
    apply getLast?_drop_of_lt
    have : 0 < stack.length := List.length_pos.mpr h
    unfold MAX_HISTORY_SIZE at hgt ⊢
    omega
  · rfl

theorem trimmedStack_of_le (stack : List String)
    (h : stack.length ≤ MAX_HISTORY_SIZE) : trimmedStack stack = stack := by
  unfold trimmedStack
  rw [if_neg (by omega)]

/-- The content of `pushToHistory` on the changed tab when the content
actually differs from the last-saved text. -/
theorem pushToHistory_changed (st : HistoryState) (tab : Int) (content : String)
    (h : st.lastSaved tab ≠ content) :
    (pushToHistory st tab content).undoStack tab
        = trimmedStack (pushedStack (st.undoStack tab) (st.lastSaved tab)) ∧
    (pushToHistory st tab content).redoStack tab = [] ∧
    (pushToHistory st tab content).lastSaved tab = content := by
  unfold pushToHistory
  rw [if_pos h]
  refine ⟨?_, ?_, ?_⟩ <;> simp [setIdx]

theorem pushToHistory_undoStack_getLast? (st : HistoryState) (tab : Int)
    (content : String) (h : st.lastSaved tab ≠ content) :
    ((pushToHistory st tab content).undoStack tab).getLast?
      = some (st.lastSaved tab) := by
  rw [(pushToHistory_changed st tab content h).1,
    trimmedStack_getLast? _ (pushedStack_ne_nil _ _),
    pushedStack_getLast?]

/-- Unfolding of `myundo` on a non-empty undo stack. -/
theorem myundo_eq (st : HistoryState) (tab : Int) (v : String)
    (h : (st.undoStack tab).getLast? = some v) :
    myundo st tab
      = (some v,
         { undoStack := setIdx st.undoStack tab (st.undoStack tab).dropLast
           redoStack := setIdx st.redoStack tab
             (st.redoStack tab ++ [st.lastSaved tab])
           lastSaved := setIdx st.lastSaved tab v }) := by
  unfold myundo
  rw [h]

/-- Unfolding of `myredo` on a non-empty redo stack. -/
theorem myredo_eq (st : HistoryState) (tab : Int) (v : String)
    (h : (st.redoStack tab).getLast? = some v) :
    myredo st tab
      = (some v,
         { undoStack := setIdx st.undoStack tab
             (st.undoStack tab ++ [st.lastSaved tab])
           redoStack := setIdx st.redoStack tab (st.redoStack tab).dropLast
           lastSaved := setIdx st.lastSaved tab v }) := by
  unfold myredo
  rw [h]

/-! ## Claim theorems -/

/-- C9.  For every slot whose undo stack (respectively redo stack) is
empty, `myundo` (respectively `myredo`) returns `none` and leaves the
whole history state — both stacks and the last-committed text of every
slot — unchanged. -/
theorem undo_redo_empty_noop :
    (∀ (st : HistoryState) (tab : Int), st.undoStack tab = [] →
        myundo st tab = (none, st)) ∧
    (∀ (st : HistoryState) (tab : Int), st.redoStack tab = [] →
        myredo st tab = (none, st)) := by
  constructor
  · intro st tab h
    unfold myundo
    rw [h]
    rfl
  · intro st tab h
    unfold myredo
    rw [h]
    rfl

/-- Witness for C9 at a fresh history state. -/
theorem undo_redo_empty_noop_witness :
    myundo histInit 0 = (none, histInit) ∧
    myredo histInit 0 = (none, histInit) :=
  ⟨undo_redo_empty_noop.1 histInit 0 rfl, undo_redo_empty_noop.2 histInit 0 rfl⟩

/-- C2 counterexample.  The claim says the snapshot operation sets
`lastCommitted[slot]` to the pre-edit text `previousText`; in
`pushToHistory` the store `lastSavedContent[tabIndex]` is set to the *new*
content instead.  Starting from the fresh state (last committed text `""`)
and recording an edit to `"B"`, the last committed text becomes `"B"`,
not the pre-edit text `""`. -/
theorem record_lastCommitted_cex :
    histInit.lastSaved 0 = "" ∧
    (pushToHistory histInit 0 "B").lastSaved 0 = "B" ∧
    (pushToHistory histInit 0 "B").lastSaved 0 ≠ histInit.lastSaved 0 := by
  decide

/-- C2 (amended).  For every recorded change (new text differs from the
last committed text), `pushToHistory` pushes the pre-edit text onto the
slot's undo stack only if it differs from the current top of that stack
(evicting the oldest entry when the stack is full), clears the slot's redo
stack — so a redo immediately after a new edit returns `none` — and sets
the last committed text to the *new* content. -/
theorem record_if_changed (st : HistoryState) (tab : Int) (content : String)
    (h : st.lastSaved tab ≠ content) :
    ((st.undoStack tab).getLast? ≠ some (st.lastSaved tab) →
        (st.undoStack tab).length < MAX_HISTORY_SIZE →
        (pushToHistory st tab content).undoStack tab
          = st.undoStack tab ++ [st.lastSaved tab]) ∧
    ((st.undoStack tab).getLast? ≠ some (st.lastSaved tab) →
        (st.undoStack tab).length = MAX_HISTORY_SIZE →
        (pushToHistory st tab content).undoStack tab
          = (st.undoStack tab ++ [st.lastSaved tab]).drop 1) ∧
    ((st.undoStack tab).getLast? = some (st.lastSaved tab) →
        (st.undoStack tab).length ≤ MAX_HISTORY_SIZE →
        (pushToHistory st tab content).undoStack tab = st.undoStack tab) ∧
    (pushToHistory st tab content).redoStack tab = [] ∧
    (pushToHistory st tab content).lastSaved tab = content ∧
    (myredo (pushToHistory st tab content) tab).1 = none := by
  obtain ⟨hundo, hredo, hlast⟩ := pushToHistory_changed st tab content h
  refine ⟨?_, ?_, ?_, hredo, hlast, ?_⟩
  · intro htop hlen
    rw [hundo, pushedStack, if_pos (Or.inr htop),
      trimmedStack_of_le _ (by simp; omega)]
  · intro htop hlen
    rw [hundo, pushedStack, if_pos (Or.inr htop), trimmedStack, jsSliceLast,
      if_pos (by simp; omega)]
    congr 1
    simp [hlen]
  · intro htop hlen
    have hne : (st.undoStack tab).length ≠ 0 := by
      intro h0
      rw [List.length_eq_zero.mp h0] at htop
      simp at htop
    rw [hundo, pushedStack, if_neg (by push_neg; exact ⟨hne, htop⟩),
      trimmedStack_of_le _ hlen]
  · unfold myredo
    rw [hredo]
    rfl

/-- Witness for C2 at the fresh state: the first edit pushes the pre-edit
text `""`, clears the redo stack and commits `"B"`. -/
theorem record_if_changed_witness :
    (pushToHistory histInit 0 "B").undoStack 0 = [] ++ [""] ∧
    (pushToHistory histInit 0 "B").redoStack 0 = [] ∧
    (pushToHistory histInit 0 "B").lastSaved 0 = "B" ∧
    (myredo (pushToHistory histInit 0 "B") 0).1 = none := by
  have h := record_if_changed histInit 0 "B" (by decide)
  exact ⟨h.1 (by decide) (by decide), h.2.2.2.1, h.2.2.2.2.1, h.2.2.2.2.2⟩

/-- C1.  From committed content `A`, recording an edit to `B ≠ A` and then
undoing returns `A`; a subsequent redo returns `B`.  After the undo the
redo stack holds exactly `[B]`, and after the redo the undo stack is the
same stack again, with `A` on top. -/
theorem undo_redo_inverse (st : HistoryState) (s : Int) (A B : String)
    (hAB : A ≠ B) (hA : st.lastSaved s = A) :
    (myundo (pushToHistory st s B) s).1 = some A ∧
    (myundo (pushToHistory st s B) s).2.redoStack s = [B] ∧
    (myredo (myundo (pushToHistory st s B) s).2 s).1 = some B ∧
    (myredo (myundo (pushToHistory st s B) s).2 s).2.undoStack s
      = (pushToHistory st s B).undoStack s ∧
    ((myredo (myundo (pushToHistory st s B) s).2 s).2.undoStack s).getLast?
      = some A := by
  have hne : st.lastSaved s ≠ B := by rw [hA]; exact hAB
  obtain ⟨hundo, hredo, hlast⟩ := pushToHistory_changed st s B hne
  have htop : ((pushToHistory st s B).undoStack s).getLast? = some A := by
    rw [pushToHistory_undoStack_getLast? st s B hne, hA]
  have hu := myundo_eq (pushToHistory st s B) s A htop
  have hu1 : (myundo (pushToHistory st s B) s).1 = some A := by rw [hu]
  have huU : (myundo (pushToHistory st s B) s).2.undoStack s
      = ((pushToHistory st s B).undoStack s).dropLast := by rw [hu]; simp
  have huR : (myundo (pushToHistory st s B) s).2.redoStack s = [B] := by
    rw [hu]; simp [hredo, hlast]
  have huL : (myundo (pushToHistory st s B) s).2.lastSaved s = A := by
    rw [hu]; simp
  have hrtop : ((myundo (pushToHistory st s B) s).2.redoStack s).getLast?
      = some B := by rw [huR]; rfl
  have hr := myredo_eq (myundo (pushToHistory st s B) s).2 s B hrtop
  have hr1 : (myredo (myundo (pushToHistory st s B) s).2 s).1 = some B := by
    rw [hr]
  have hrU : (myredo (myundo (pushToHistory st s B) s).2 s).2.undoStack s
      = (pushToHistory st s B).undoStack s := by
    rw [hr]
    simp only [setIdx_same]
    rw [huU, huL]
    exact List.dropLast_append_getLast? A htop
  exact ⟨hu1, huR, hr1, hrU, by rw [hrU, htop]⟩

/-- Witness for C1: fresh state, slot 0, `A = ""`, `B = "x"`. -/
theorem undo_redo_inverse_witness :
    (myundo (pushToHistory histInit 0 "x") 0).1 = some "" ∧
    (myundo (pushToHistory histInit 0 "x") 0).2.redoStack 0 = ["x"] ∧
    (myredo (myundo (pushToHistory histInit 0 "x") 0).2 0).1 = some "x" ∧
    (myredo (myundo (pushToHistory histInit 0 "x") 0).2 0).2.undoStack 0
      = (pushToHistory histInit 0 "x").undoStack 0 ∧
    ((myredo (myundo (pushToHistory histInit 0 "x") 0).2 0).2.undoStack 0).getLast?
      = some "" :=
  undo_redo_inverse histInit 0 "" "x" (by decide) rfl

set_option maxRecDepth 100000

/-- C4.  The undo stack of any slot never exceeds `MAX_HISTORY_SIZE = 100`
entries, and performing 101 pairwise distinct edits on slot 0 of a fresh
state leaves exactly 100 entries: the snapshots of edits 2..101, the
oldest snapshot (the initial text `aStr 0 = ""`) having been evicted. -/
theorem history_bound :
    (∀ (st : HistoryState) (tab : Int) (content : String) (j : Int),
        (st.undoStack j).length ≤ MAX_HISTORY_SIZE →
        ((pushToHistory st tab content).undoStack j).length ≤ MAX_HISTORY_SIZE) ∧
    (editMany histInit 0
        ((List.range (MAX_HISTORY_SIZE + 1)).map fun i => aStr (i + 1))).undoStack 0
      = ((List.range MAX_HISTORY_SIZE).map fun i => aStr (i + 1)) ∧
    ((editMany histInit 0
        ((List.range (MAX_HISTORY_SIZE + 1)).map fun i => aStr (i + 1))).undoStack 0).length
      = MAX_HISTORY_SIZE := by
  refine ⟨?_, ?_, ?_⟩
  · intro st tab content j hj
    unfold pushToHistory
    split
    · by_cases hjt : j = tab
      · subst hjt
        simp only [setIdx_same]
        rw [trimmedStack_length]
        omega
      · simp only [setIdx_other _ _ _ _ hjt]
        exact hj
    · exact hj
  · decide
  · decide

/-- Witness for C4's bounded-size conjunct at a concrete push. -/
theorem history_bound_witness :
    ((pushToHistory histInit 0 "x").undoStack 0).length ≤ MAX_HISTORY_SIZE :=
  history_bound.1 histInit 0 "x" 0 (by decide)

/-- C10.  `setActiveTab` rejects any index outside 0..6: it returns
`false`, leaves the state untouched and performs no store update or
persistence call; consequently, starting from an in-range active tab,
any sequence of `setActiveTab` requests keeps the active tab in 0..6. -/
theorem setActiveTab_range :
    (∀ (st : AppState) (i : Int), ¬ (0 ≤ i ∧ i ≤ 6) →
        setActiveTab st i = (st, false, [])) ∧
    (∀ (st : AppState) (l : List Int), 0 ≤ st.activeTab → st.activeTab ≤ 6 →
        0 ≤ (runSetActiveTabs st l).activeTab ∧
        (runSetActiveTabs st l).activeTab ≤ 6) := by
  have hreject : ∀ (st : AppState) (i : Int), ¬ (0 ≤ i ∧ i ≤ 6) →
      setActiveTab st i = (st, false, []) := by
    intro st i h
    unfold setActiveTab
    rw [if_neg h]
  refine ⟨hreject, ?_⟩
  intro st l
  induction l generalizing st with
  | nil => intro h0 h6; exact ⟨h0, h6⟩
  | cons i l ih =>
      intro h0 h6
      have hrun : runSetActiveTabs st (i :: l)
          = runSetActiveTabs (setActiveTab st i).1 l := rfl
      rw [hrun]
      by_cases hi : 0 ≤ i ∧ i ≤ 6
      · have hset : (setActiveTab st i).1.activeTab = i := by
          unfold setActiveTab
          rw [if_pos hi]
        exact ih _ (by rw [hset]; exact hi.1) (by rw [hset]; exact hi.2)
      · have hset : (setActiveTab st i).1 = st := by rw [hreject st i hi]
        rw [hset]
        exact ih st h0 h6

/-- Witness for C10: out-of-range requests 7 and -1 are rejected and a
mixed request sequence keeps the active tab in range. -/
theorem setActiveTab_range_witness :
    setActiveTab appInit 7 = (appInit, false, []) ∧
    setActiveTab appInit (-1) = (appInit, false, []) ∧
    0 ≤ (runSetActiveTabs appInit [3, -1, 9, 5]).activeTab ∧
    (runSetActiveTabs appInit [3, -1, 9, 5]).activeTab ≤ 6 :=
  ⟨setActiveTab_range.1 appInit 7 (by decide),
   setActiveTab_range.1 appInit (-1) (by decide),
   (setActiveTab_range.2 appInit [3, -1, 9, 5] (by decide) (by decide)).1,
   (setActiveTab_range.2 appInit [3, -1, 9, 5] (by decide) (by decide)).2⟩

/-- C5 (code bug).  persistence.ts keeps a single shared
`window.savingTimeout`: scheduling the debounced write for slot 1 clears
slot 0's still-pending debounced write.  After `saveNote(0, "hello")`
followed by `saveNote(1, "world")` the only pending write is slot 1's;
letting every pending timer fire performs the filesystem write for slot 1
and never the one for slot 0. -/
theorem shared_debounce_timer_cancels :
    (saveNote appInit 0 "hello").1.savingTimeout = some (0, "hello") ∧
    Ev.clearSavingTimeout ∈ (saveNote (saveNote appInit 0 "hello").1 1 "world").2 ∧
    (saveNote (saveNote appInit 0 "hello").1 1 "world").1.savingTimeout
      = some (1, "world") ∧
    (fireSavingTimeout (saveNote (saveNote appInit 0 "hello").1 1 "world").1).2
      = [Ev.invokeSaveNote 1 "world"] ∧
    (fireSavingTimeout
      (fireSavingTimeout (saveNote (saveNote appInit 0 "hello").1 1 "world").1).1).2
      = [] := by
  decide

/-- C6 counterexample.  The claim says setting a slot's content to `""`
issues the persistence write as an immediate flush, not scheduled on the
1-second debounce timer.  In the code `updateNote(0, "")` calls
`saveNote`, which performs no immediate filesystem write and instead
schedules the write on the usual 1000 ms debounce timeout. -/
theorem empty_save_debounced_cex :
    (∀ c, Ev.invokeSaveNote 0 c ∉ (updateNote appInit 0 "").2) ∧
    Ev.scheduleSaveTimeout 0 "" 1000 ∈ (updateNote appInit 0 "").2 ∧
    (updateNote appInit 0 "").1.savingTimeout = some (0, "") := by
  refine ⟨?_, by decide, by decide⟩
  intro c
  show Ev.invokeSaveNote 0 c ∉
    [Ev.updateNoteCall 0 "", Ev.saveNoteCall 0 "", Ev.localStorageSetNote 0 "",
     Ev.scheduleSaveTimeout 0 "" 1000]
  simp

/-- C6 (amended).  Setting a slot's content to the empty string triggers
the `saveNote` persistence call for that slot synchronously inside
`updateNote` (no debounce delay before the call, and the localStorage
write happens at once), but the filesystem write itself is scheduled on
the 1-second debounce timer like any other save; a non-empty update
triggers no `saveNote` call from `updateNote` at all. -/
theorem empty_content_save (st : AppState) (tab : Int) :
    Ev.saveNoteCall tab "" ∈ (updateNote st tab "").2 ∧
    Ev.localStorageSetNote tab "" ∈ (updateNote st tab "").2 ∧
    Ev.scheduleSaveTimeout tab "" 1000 ∈ (updateNote st tab "").2 ∧
    (updateNote st tab "").1.savingTimeout = some (tab, "") ∧
    (∀ c, c ≠ "" → ∀ t c', Ev.saveNoteCall t c' ∉ (updateNote st tab c).2) := by
  refine ⟨?_, ?_, ?_, ?_, ?_⟩
  · unfold updateNote saveNote
    cases st.savingTimeout <;> simp
  · unfold updateNote saveNote
    cases st.savingTimeout <;> simp
  · unfold updateNote saveNote
    cases st.savingTimeout <;> simp
  · unfold updateNote saveNote
    cases st.savingTimeout <;> simp
  · intro c hc t c'
    unfold updateNote
    rw [if_neg hc]
    simp

/-- Witness for C6's amended theorem at the fresh state, slot 0. -/
theorem empty_content_save_witness :
    Ev.saveNoteCall 0 "" ∈ (updateNote appInit 0 "").2 ∧
    Ev.scheduleSaveTimeout 0 "" 1000 ∈ (updateNote appInit 0 "").2 ∧
    Ev.saveNoteCall 0 "x" ∉ (updateNote appInit 0 "x").2 :=
  ⟨(empty_content_save appInit 0).1, (empty_content_save appInit 0).2.2.1,
   (empty_content_save appInit 0).2.2.2.2 "x" (by decide) 0 "x"⟩

/-- Trace and frame facts about `saveNote`: it records its own call, never
sets the active tab, performs no filesystem write within the synchronous
call (the `invoke` is behind the timeout), and leaves the notes store
alone. -/
theorem saveNote_trace (st : AppState) (tab : Int) (c : String) :
    Ev.saveNoteCall tab c ∈ (saveNote st tab c).2 ∧
    (∀ t, Ev.activeTabSet t ∉ (saveNote st tab c).2) ∧
    (∀ t c', Ev.invokeSaveNote t c' ∉ (saveNote st tab c).2) ∧
    (saveNote st tab c).1.notes = st.notes := by
  unfold saveNote
  cases st.savingTimeout <;> simp

/-- Trace and frame facts about `updateNote`: it never sets the active tab,
performs no synchronous filesystem write, and commits the content to the
notes store. -/
theorem updateNote_trace (st : AppState) (tab : Int) (c : String) :
    (∀ t, Ev.activeTabSet t ∉ (updateNote st tab c).2) ∧
    (∀ t c', Ev.invokeSaveNote t c' ∉ (updateNote st tab c).2) ∧
    (updateNote st tab c).1.notes tab = c := by
  unfold updateNote saveNote
  by_cases hc : c = ""
  · cases st.savingTimeout <;> simp [hc, setIdx]
  · rw [if_neg hc]
    simp [setIdx]

/-- The trace of an in-range `setActiveTab` call, and facts holding for
any `setActiveTab` call: no filesystem note write, notes store unchanged. -/
theorem setActiveTab_trace (st : AppState) (n : Int) :
    ((0 ≤ n ∧ n ≤ 6) →
        (setActiveTab st n).2.2 = [Ev.activeTabSet n, Ev.saveActiveTabCall n]) ∧
    (∀ t c, Ev.invokeSaveNote t c ∉ (setActiveTab st n).2.2) ∧
    (setActiveTab st n).1.notes = st.notes := by
  unfold setActiveTab
  by_cases hn : 0 ≤ n ∧ n ≤ 6
  · rw [if_pos hn]
    simp
  · rw [if_neg hn]
    simp [hn]

/-- C3.  When the live view content differs from the notes-store value of
the outgoing (active) slot, the `save-current-content` handler commits the
view content to the store and invokes the `saveNote` persistence call for
the outgoing slot synchronously, strictly before any `activeTab` update;
no debounced filesystem write happens anywhere in the synchronous trace
(the handler does not wait for the debounce interval). -/
theorem switch_flush (st : AppState) (viewContent : String) (newTab : Int)
    (h : viewContent ≠ st.notes st.activeTab) :
    ∃ l1 l2 : List Ev,
      (handleSaveContentEvent st (some viewContent) newTab).2 = l1 ++ l2 ∧
      Ev.saveNoteCall st.activeTab viewContent ∈ l1 ∧
      (∀ t, Ev.activeTabSet t ∉ l1) ∧
      ((0 ≤ newTab ∧ newTab ≤ 6) → Ev.activeTabSet newTab ∈ l2) ∧
      (∀ t c, Ev.invokeSaveNote t c
        ∉ (handleSaveContentEvent st (some viewContent) newTab).2) ∧
      (handleSaveContentEvent st (some viewContent) newTab).1.notes st.activeTab
        = viewContent := by
  have hrun : handleSaveContentEvent st (some viewContent) newTab
      = ((setActiveTab (saveNote (updateNote st st.activeTab viewContent).1
            st.activeTab viewContent).1 newTab).1,
         (updateNote st st.activeTab viewContent).2 ++
           (saveNote (updateNote st st.activeTab viewContent).1
             st.activeTab viewContent).2 ++
           (setActiveTab (saveNote (updateNote st st.activeTab viewContent).1
             st.activeTab viewContent).1 newTab).2.2) := by
    simp only [handleSaveContentEvent]
    rw [if_pos h]
  refine ⟨(updateNote st st.activeTab viewContent).2 ++
      (saveNote (updateNote st st.activeTab viewContent).1
        st.activeTab viewContent).2,
    (setActiveTab (saveNote (updateNote st st.activeTab viewContent).1
      st.activeTab viewContent).1 newTab).2.2, ?_, ?_, ?_, ?_, ?_, ?_⟩
  · rw [hrun]
  · exact List.mem_append_right _ (saveNote_trace _ _ _).1
  · intro t hmem
    rcases List.mem_append.mp hmem with hmem | hmem
    · exact (updateNote_trace st st.activeTab viewContent).1 t hmem
    · exact (saveNote_trace _ st.activeTab viewContent).2.1 t hmem
  · intro hn
    rw [(setActiveTab_trace _ newTab).1 hn]
    simp
  · intro t c hmem
    rw [hrun] at hmem
    rcases List.mem_append.mp hmem with hmem | hmem
    · rcases List.mem_append.mp hmem with hmem | hmem
      · exact (updateNote_trace st st.activeTab viewContent).2.1 t c hmem
      · exact (saveNote_trace _ st.activeTab viewContent).2.2.1 t c hmem
    · exact (setActiveTab_trace _ newTab).2.1 t c hmem
  · rw [hrun]
    show (setActiveTab _ newTab).1.notes st.activeTab = viewContent
    rw [(setActiveTab_trace _ newTab).2.2, (saveNote_trace _ _ _).2.2.2]
    exact (updateNote_trace st st.activeTab viewContent).2.2

/-! ### Helper lemmas: JS string surgery for `wrapSelection` -/

theorem jsSubstring_le (v : List Char) (s e : Nat) (hse : s ≤ e)
    (hel : e ≤ v.length) :
    jsSubstring v (s : Int) (e : Int) = (v.take e).drop s := by
  simp only [jsSubstring]
  congr 2
  · omega
  · omega

theorem jsSubstring_front (v : List Char) (s blen : Nat) (hs : s ≤ v.length) :
    jsSubstring v 0 ((s : Int) - (blen : Int)) = v.take (s - blen) := by
  simp only [jsSubstring]
  have h1 : (max 0 (min ((s : Int) - (blen : Int)) (v.length : Int))).toNat
      = s - blen := by omega
  have h0 : (max 0 (min (0 : Int) (v.length : Int))).toNat = 0 := by omega
  rw [h1, h0]
  simp

theorem jsSubstring_before (v : List Char) (s blen : Nat) (hs : s ≤ v.length) :
    jsSubstring v ((s : Int) - (blen : Int)) (s : Int)
      = (v.take s).drop (s - blen) := by
  simp only [jsSubstring]
  congr 2
  · omega
  · omega

theorem jsSubstring_after (v : List Char) (e alen : Nat) (he : e ≤ v.length) :
    jsSubstring v (e : Int) ((e : Int) + (alen : Int))
      = (v.drop e).take alen := by
  simp only [jsSubstring]
  have ha : (max 0 (min (e : Int) (v.length : Int))).toNat = e := by omega
  have hb : (max 0 (min ((e : Int) + (alen : Int)) (v.length : Int))).toNat
      = min (e + alen) v.length := by omega
  rw [ha, hb, show max e (min (e + alen) v.length) = min (e + alen) v.length by omega,
    show min e (min (e + alen) v.length) = e by omega, List.drop_take]
  rw [List.take_eq_take]
  simp
  omega

theorem jsSubstring_suffix (v : List Char) (k : Nat) (hk : k ≤ v.length) :
    jsSubstring v (k : Int) ((v.length : Nat) : Int) = v.drop k := by
  simp only [jsSubstring]
  have ha : (max 0 (min (k : Int) (v.length : Int))).toNat = k := by omega
  have hb : (max 0 (min ((v.length : Nat) : Int) (v.length : Int))).toNat
      = v.length := by omega
  rw [ha, hb, show max k v.length = v.length by omega,
    show min k v.length = k by omega, List.take_length]

/-- The `hasBefore` test of `wrapSelection` holds exactly when the
delimiter fits in front of the selection and the characters there spell
it out. -/
theorem hasBefore_iff (v before : List Char) (s : Nat) (hs : s ≤ v.length) :
    jsSubstring v ((s : Int) - (before.length : Int)) (s : Int) = before
      ↔ before.length ≤ s ∧
        (v.drop (s - before.length)).take before.length = before := by
  rw [jsSubstring_before v s before.length hs]
  constructor
  · intro heq
    have hlen : ((v.take s).drop (s - before.length)).length = before.length := by
      rw [heq]
    rw [List.length_drop, List.length_take] at hlen
    have hble : before.length ≤ s := by omega
    rw [List.drop_take,
      show s - (s - before.length) = before.length by omega] at heq
    exact ⟨hble, heq⟩
  · rintro ⟨hble, heq⟩
    rw [List.drop_take, show s - (s - before.length) = before.length by omega]
    exact heq

/-- The `hasAfter` test of `wrapSelection` holds exactly when the
characters behind the selection spell out the delimiter. -/
theorem hasAfter_iff (v after : List Char) (e : Nat) (he : e ≤ v.length) :
    jsSubstring v (e : Int) ((e : Int) + (after.length : Int)) = after
      ↔ (v.drop e).take after.length = after := by
  rw [jsSubstring_after v e after.length he]

/-- A successful `hasAfter` match means the delimiter fits inside the
value behind the selection. -/
theorem hasAfter_le (v after : List Char) (e : Nat) (he : e ≤ v.length)
    (h : (v.drop e).take after.length = after) :
    e + after.length ≤ v.length := by
  have hlen : ((v.drop e).take after.length).length = after.length := by rw [h]
  rw [List.length_take, List.length_drop] at hlen
  omega

theorem domClampSel_of_le (n : Nat) (k : Nat) (h : k ≤ n) :
    domClampSel n (k : Int) = k := by
  unfold domClampSel
  omega

/-- C8 counterexample.  The claim says an empty selection always makes the
delimiter command insert an empty delimiter pair with the cursor between
the delimiters.  With value `"****"` and the cursor sitting at offset 2
(between the two `**` pairs), the claimed behaviour would produce
`"********"` with the cursor at 4; `wrapSelection("**", "**")` instead
takes the toggle branch and removes the surrounding pair, leaving the
empty string with the cursor at 0. -/
theorem wrap_empty_selection_cex :
    (wrapSelection ⟨"****".toList, 2, 2⟩ "**".toList "**".toList).value = [] ∧
    (wrapSelection ⟨"****".toList, 2, 2⟩ "**".toList "**".toList).value
      ≠ "********".toList ∧
    (wrapSelection ⟨"****".toList, 2, 2⟩ "**".toList "**".toList).selStart
      ≠ 4 := by
  decide

/-- C8 (amended).  In the plain-text view, the delimiter command first
applies the toggle test to the text around the selection: if the selection
is exactly surrounded by the delimiter pair, the pair is removed and the
selected text is preserved; otherwise the selection is wrapped in the
delimiters; and when the selection is empty *and not already surrounded by
the delimiters*, an empty delimiter pair is inserted with the cursor
placed between the two delimiters. -/
theorem wrapSelection_toggle (ta : Textarea) (before after : List Char)
    (hse : ta.selStart ≤ ta.selEnd) (hel : ta.selEnd ≤ ta.value.length) :
    (wrappedAround ta before after →
        (wrapSelection ta before after).value
          = ta.value.take (ta.selStart - before.length)
              ++ (ta.value.take ta.selEnd).drop ta.selStart
              ++ ta.value.drop (ta.selEnd + after.length)) ∧
    (¬ wrappedAround ta before after →
        (wrapSelection ta before after).value
          = ta.value.take ta.selStart ++ before
              ++ (ta.value.take ta.selEnd).drop ta.selStart ++ after
              ++ ta.value.drop ta.selEnd) ∧
    (¬ wrappedAround ta before after → ta.selStart = ta.selEnd →
        (wrapSelection ta before after).value
          = ta.value.take ta.selStart ++ before ++ after
              ++ ta.value.drop ta.selStart ∧
        (wrapSelection ta before after).selStart
          = ta.selStart + before.length ∧
        (wrapSelection ta before after).selEnd
          = ta.selStart + before.length) := by
  have hs : ta.selStart ≤ ta.value.length := le_trans hse hel
  have hcond :
      (jsSubstring ta.value ((ta.selStart : Int) - (before.length : Int))
          (ta.selStart : Int) = before ∧
        jsSubstring ta.value (ta.selEnd : Int)
          ((ta.selEnd : Int) + (after.length : Int)) = after)
        ↔ wrappedAround ta before after := by
    rw [hasBefore_iff ta.value before ta.selStart hs,
      hasAfter_iff ta.value after ta.selEnd hel]
    unfold wrappedAround
    tauto
  refine ⟨?_, ?_, ?_⟩
  · intro hw
    have hcode := hcond.mpr hw
    obtain ⟨hble, hbefore, hafter⟩ := hw
    have hea : ta.selEnd + after.length ≤ ta.value.length :=
      hasAfter_le ta.value after ta.selEnd hel hafter
    simp only [wrapSelection]
    rw [if_pos hcode]
    show jsSubstring ta.value 0 _ ++ jsSubstring ta.value _ _ ++
        jsSubstring ta.value _ _ = _
    rw [jsSubstring_front ta.value ta.selStart before.length hs,
      jsSubstring_le ta.value ta.selStart ta.selEnd hse hel,
      show (ta.selEnd : Int) + (after.length : Int)
        = ((ta.selEnd + after.length : Nat) : Int) by push_cast; ring,
      jsSubstring_suffix ta.value (ta.selEnd + after.length) hea]
  · intro hnw
    have hcode := fun hc => hnw (hcond.mp hc)
    by_cases hme : ta.selStart = ta.selEnd
    · simp only [wrapSelection]
      rw [if_neg hcode, if_pos hme]
      show (setRangeTextEnd ta _ _ _).value = _
      simp only [setRangeTextEnd]
      rw [min_eq_left hs, min_eq_left hel,
        jsSubstring_le ta.value ta.selStart ta.selEnd hse hel]
      simp [List.append_assoc]
    · simp only [wrapSelection]
      rw [if_neg hcode, if_neg hme]
      show (setRangeTextEnd ta _ _ _).value = _
      simp only [setRangeTextEnd]
      rw [min_eq_left hs, min_eq_left hel,
        jsSubstring_le ta.value ta.selStart ta.selEnd hse hel]
      simp [List.append_assoc]
  · intro hnw hme
    have hcode := fun hc => hnw (hcond.mp hc)
    have hsel : (ta.value.take ta.selEnd).drop ta.selStart = [] := by
      apply List.drop_eq_nil_of_le
      rw [List.length_take]
      omega
    have hlen1 : (setRangeTextEnd ta
        (before ++ jsSubstring ta.value ta.selStart ta.selEnd ++ after)
        ta.selStart ta.selEnd).value.length
        = ta.selStart +
            (before ++ jsSubstring ta.value ta.selStart ta.selEnd ++ after).length
            + (ta.value.length - ta.selEnd) := by
      simp only [setRangeTextEnd]
      rw [min_eq_left hs, min_eq_left hel]
      simp only [List.length_append, List.length_take, List.length_drop]
      omega
    refine ⟨?_, ?_, ?_⟩
    · simp only [wrapSelection]
      rw [if_neg hcode, if_pos hme]
      show (setRangeTextEnd ta _ _ _).value = _
      simp only [setRangeTextEnd]
      rw [min_eq_left hs, min_eq_left hel,
        jsSubstring_le ta.value ta.selStart ta.selEnd hse hel, hsel, ← hme]
      simp [List.append_assoc]
    · simp only [wrapSelection]
      rw [if_neg hcode, if_pos hme]
      show domClampSel _ ((ta.selStart : Int) + (before.length : Int)) = _
      rw [show (ta.selStart : Int) + (before.length : Int)
          = ((ta.selStart + before.length : Nat) : Int) by push_cast; ring]
      apply domClampSel_of_le
      rw [hlen1]
      simp only [List.length_append]
      omega
    · simp only [wrapSelection]
      rw [if_neg hcode, if_pos hme]
      show domClampSel _ ((ta.selStart : Int) + (before.length : Int)) = _
      rw [show (ta.selStart : Int) + (before.length : Int)
          = ((ta.selStart + before.length : Nat) : Int) by push_cast; ring]
      apply domClampSel_of_le
      rw [hlen1]
      simp only [List.length_append]
      omega

/-- Witness for C8's amended theorem: wrapping the full selection of
`"bold"` yields `"**bold**"`, and pressing the command with an empty
selection in `"ab"` at offset 1 inserts `"**<cursor>**"`. -/
theorem wrapSelection_toggle_witness :
    (wrapSelection ⟨"bold".toList, 0, 4⟩ "**".toList "**".toList).value
      = ("bold".toList.take 0 ++ "**".toList
          ++ ("bold".toList.take 4).drop 0 ++ "**".toList
          ++ "bold".toList.drop 4) ∧
    (wrapSelection ⟨"ab".toList, 1, 1⟩ "**".toList "**".toList).value
      = ("ab".toList.take 1 ++ "**".toList ++ "**".toList
          ++ "ab".toList.drop 1) ∧
    (wrapSelection ⟨"ab".toList, 1, 1⟩ "**".toList "**".toList).selStart
      = 1 + "**".toList.length ∧
    (wrapSelection ⟨"ab".toList, 1, 1⟩ "**".toList "**".toList).selEnd
      = 1 + "**".toList.length :=
  ⟨(wrapSelection_toggle ⟨"bold".toList, 0, 4⟩ "**".toList "**".toList
      (by decide) (by decide)).2.1 (by decide),
   ((wrapSelection_toggle ⟨"ab".toList, 1, 1⟩ "**".toList "**".toList
      (by decide) (by decide)).2.2 (by decide) rfl).1,
   ((wrapSelection_toggle ⟨"ab".toList, 1, 1⟩ "**".toList "**".toList
      (by decide) (by decide)).2.2 (by decide) rfl).2.1,
   ((wrapSelection_toggle ⟨"ab".toList, 1, 1⟩ "**".toList "**".toList
      (by decide) (by decide)).2.2 (by decide) rfl).2.2⟩

/-- C7.  `setCursorPosition` with an offset beyond the current content
length clamps silently: the plain view's cursor lands exactly at the
content length, and so does the structured view's (with length measured as
its document content size); for any non-negative offset both views land
inside `[0, content length]`, and both functions are total (never throw:
the plain view's DOM setter clamps, the structured view catches). -/
theorem setCursorPosition_clamps (len size cur : Nat) (position : Int)
    (hlen : (len : Int) < position) (hsize : (size : Int) < position) :
    markdownSetCursorPosition len position = len ∧
    prosemirrorSetCursorPosition size cur position = size ∧
    (∀ p : Int, markdownSetCursorPosition len p ≤ len) ∧
    (∀ p : Int, 0 ≤ p → prosemirrorSetCursorPosition size cur p ≤ size) := by
  refine ⟨?_, ?_, ?_, ?_⟩
  · unfold markdownSetCursorPosition domClampSel
    omega
  · unfold prosemirrorSetCursorPosition
    have hmin : min position (size : Int) = (size : Int) := by omega
    rw [hmin]
    simp
  · intro p
    unfold markdownSetCursorPosition domClampSel
    omega
  · intro p hp
    unfold prosemirrorSetCursorPosition
    have h0 : (0 : Int) ≤ min p (size : Int) := by omega
    rw [if_pos h0]
    omega

/-- Witness for C7: content of length 3 in both views, restoring a stored
offset 10 from before the content shrank. -/
theorem setCursorPosition_clamps_witness :
    markdownSetCursorPosition 3 10 = 3 ∧
    prosemirrorSetCursorPosition 3 0 10 = 3 ∧
    (∀ p : Int, markdownSetCursorPosition 3 p ≤ 3) ∧
    (∀ p : Int, 0 ≤ p → prosemirrorSetCursorPosition 3 0 p ≤ 3) :=
  setCursorPosition_clamps 3 3 0 10 (by decide) (by decide)

/-- Witness for C3: typing `"hello"` into slot 0 of the fresh state and
switching to slot 1. -/
theorem switch_flush_witness :
    ∃ l1 l2 : List Ev,
      (handleSaveContentEvent appInit (some "hello") 1).2 = l1 ++ l2 ∧
      Ev.saveNoteCall appInit.activeTab "hello" ∈ l1 ∧
      (∀ t, Ev.activeTabSet t ∉ l1) ∧
      ((0 ≤ (1 : Int) ∧ (1 : Int) ≤ 6) → Ev.activeTabSet 1 ∈ l2) ∧
      (∀ t c, Ev.invokeSaveNote t c
        ∉ (handleSaveContentEvent appInit (some "hello") 1).2) ∧
      (handleSaveContentEvent appInit (some "hello") 1).1.notes appInit.activeTab
        = "hello" :=
  switch_flush appInit "hello" 1 (by decide)

end Jot
